import Mathlib

/-!
Verification of the detailed-placement construction routines (dpo::Optdp,
Optdp.cpp) and of the compact wire-topology backward decoder
(odb dbWireCodec, getPrevPoint) against their natural-language
specification.  The C++ sources are embedded shallowly: parallel
opcode/operand arrays become a list of slots, the decoder's goto loop
becomes a fuel-indexed recursion (fuel exhaustion and the ZASSERT failure
both surface as `none`), and the construction routines become pure
functions over snapshot records of the database inputs they read.
-/

set_option maxHeartbeats 1600000

namespace OptdpProof

/-! ### Wire-topology decoder (dbWireCodec opcodes, getPrevPoint) -/

/-- WOP_OPCODE_MASK: the opcode is the low 5 bits of the op byte. -/
def WOP_OPCODE_MASK : Nat := 31

def WOP_PATH : Nat := 0

def WOP_SHORT : Nat := 1

def WOP_JUNCTION : Nat := 2

def WOP_X : Nat := 4

def WOP_Y : Nat := 5

def WOP_VIA : Nat := 7

def WOP_TECH_VIA : Nat := 8

/-- WOP_VIA_EXIT_TOP: flag bit 0x80 on via opcodes, the path exited
    through the top via layer. -/
def WOP_VIA_EXIT_TOP : Nat := 128

/-- One slot of the parallel opcode/operand arrays of the wire encoding:
    the op byte (5-bit opcode plus flag bits) and its operand. -/
structure Slot where
  op : Nat
  operand : Int
  deriving DecidableEq, Repr

/-- A layer reference produced by the decoder.  The external database
    lookups (dbTechLayer::getTechLayer, dbVia/dbTechVia top and bottom
    layers) are kept symbolic: the constructor records which lookup the
    decoder performed and with which id. -/
inductive LayerR where
  | techLayer (id : Int)
  | viaTop (id : Int)
  | viaBottom (id : Int)
  | techViaTop (id : Int)
  | techViaBottom (id : Int)
  deriving DecidableEq, Repr

/-- WirePoint: the (x, y, layer) result of getPrevPoint; `none` models the
    nullptr layer. -/
structure WirePoint where
  x : Int
  y : Int
  layer : Option LayerR
  deriving DecidableEq, Repr

/-- The local state of the getPrevPoint loop: the two look_for flags, the
    (possibly already cleared) get_layer flag, and the partially filled
    point fields, initialized to 0 / nullptr as in the C++. -/
structure GoSt where
  look_for_x : Bool
  look_for_y : Bool
  get_layer : Bool
  px : Int
  py : Int
  pl : Option LayerR
  deriving DecidableEq, Repr

/-- The backward walk of getPrevPoint, one fuel unit per executed loop
    iteration (per visited stream slot).  `none` models both the ZASSERT
    on a negative index firing (and, as a modelling artifact, reading past
    the end of the arrays or running out of fuel).  The opcode dispatch is
    on the 5-bit field `op &&& WOP_OPCODE_MASK` exactly as in the C++
    switch; all opcodes not named there fall to the default case which
    just decrements the index. -/
def getPrevPointGo (w : List Slot) : Nat → GoSt → Int → Option WirePoint
  | 0, _, _ => none
  | fuel + 1, st, idx =>
    if idx < 0 then none
    else
      match w.get? idx.toNat with
      | none => none
      | some slot =>
        let opc := slot.op &&& WOP_OPCODE_MASK
        if opc = WOP_PATH ∨ opc = WOP_SHORT then
          if st.get_layer then
            let pl := some (LayerR.techLayer slot.operand)
            if st.look_for_x = false ∧ st.look_for_y = false then
              some ⟨st.px, st.py, pl⟩
            else
              getPrevPointGo w fuel { st with pl := pl, get_layer := false } (idx - 1)
          else getPrevPointGo w fuel st (idx - 1)
        else if opc = WOP_JUNCTION then
          getPrevPointGo w fuel st slot.operand
        else if opc = WOP_X then
          if st.look_for_x then
            if st.look_for_y = false ∧ st.get_layer = false then
              some ⟨slot.operand, st.py, st.pl⟩
            else
              getPrevPointGo w fuel { st with look_for_x := false, px := slot.operand } (idx - 1)
          else getPrevPointGo w fuel st (idx - 1)
        else if opc = WOP_Y then
          if st.look_for_y then
            if st.look_for_x = false ∧ st.get_layer = false then
              some ⟨st.px, slot.operand, st.pl⟩
            else
              getPrevPointGo w fuel { st with look_for_y := false, py := slot.operand } (idx - 1)
          else getPrevPointGo w fuel st (idx - 1)
        else if opc = WOP_VIA then
          if st.get_layer then
            let pl := some (if slot.op &&& WOP_VIA_EXIT_TOP ≠ 0 then
                LayerR.viaTop slot.operand else LayerR.viaBottom slot.operand)
            if st.look_for_x = false ∧ st.look_for_y = false then
              some ⟨st.px, st.py, pl⟩
            else
              getPrevPointGo w fuel { st with pl := pl, get_layer := false } (idx - 1)
          else getPrevPointGo w fuel st (idx - 1)
        else if opc = WOP_TECH_VIA then
          if st.get_layer then
            let pl := some (if slot.op &&& WOP_VIA_EXIT_TOP ≠ 0 then
                LayerR.techViaTop slot.operand else LayerR.techViaBottom slot.operand)
            if st.look_for_x = false ∧ st.look_for_y = false then
              some ⟨st.px, st.py, pl⟩
            else
              getPrevPointGo w fuel { st with pl := pl, get_layer := false } (idx - 1)
          else getPrevPointGo w fuel st (idx - 1)
        else getPrevPointGo w fuel st (idx - 1)

/-- getPrevPoint: start the backward walk at `idx` in the initial state
    (both coordinates still wanted, layer wanted iff `get_layer`, point
    fields zero-initialized). -/
def getPrevPoint (w : List Slot) (fuel : Nat) (idx : Int) (get_layer : Bool) :
    Option WirePoint :=
  getPrevPointGo w fuel ⟨true, true, get_layer, 0, 0, none⟩ idx

/-! A reference decoder written from the specification text: the walk
    keeps Option-valued x, y and layer fields, a field is written only
    while it is still `none` (the first writer going backward wins), the
    walk stops as soon as every requested field is resolved, irrelevant
    opcodes only decrement the index and a JUNCTION opcode redirects the
    index to its operand. -/

/-- State of the specification decoder: unresolved fields are `none`. -/
structure SpecSt where
  x : Option Int
  y : Option Int
  layer : Option LayerR
  want_layer : Bool
  deriving DecidableEq, Repr

/-- All requested fields of the specification state are resolved. -/
def specResolved (st : SpecSt) : Bool :=
  st.x.isSome && st.y.isSome && (!st.want_layer || st.layer.isSome)

/-- First-writer-wins field update for one visited slot. -/
def specUpdate (slot : Slot) (st : SpecSt) : SpecSt :=
  let opc := slot.op &&& WOP_OPCODE_MASK
  if opc = WOP_X then
    if st.x.isNone then { st with x := some slot.operand } else st
  else if opc = WOP_Y then
    if st.y.isNone then { st with y := some slot.operand } else st
  else if opc = WOP_PATH ∨ opc = WOP_SHORT then
    if st.want_layer && st.layer.isNone then
      { st with layer := some (LayerR.techLayer slot.operand) }
    else st
  else if opc = WOP_VIA then
    if st.want_layer && st.layer.isNone then
      { st with layer := some (if slot.op &&& WOP_VIA_EXIT_TOP ≠ 0 then
          LayerR.viaTop slot.operand else LayerR.viaBottom slot.operand) }
    else st
  else if opc = WOP_TECH_VIA then
    if st.want_layer && st.layer.isNone then
      { st with layer := some (if slot.op &&& WOP_VIA_EXIT_TOP ≠ 0 then
          LayerR.techViaTop slot.operand else LayerR.techViaBottom slot.operand) }
    else st
  else st

/-- Index of the next visited slot: JUNCTION redirects, everything else
    walks one slot backward. -/
def specNext (slot : Slot) (idx : Int) : Int :=
  if slot.op &&& WOP_OPCODE_MASK = WOP_JUNCTION then slot.operand else idx - 1

/-- The specification walk: assert the index is non-negative, visit the
    slot, update first-writer-wins state, return as soon as everything
    requested is resolved. -/
def getPrevPointSpecGo (w : List Slot) : Nat → SpecSt → Int → Option WirePoint
  | 0, _, _ => none
  | fuel + 1, st, idx =>
    if idx < 0 then none
    else
      match w.get? idx.toNat with
      | none => none
      | some slot =>
        let st1 := specUpdate slot st
        if specResolved st1 then some ⟨st1.x.getD 0, st1.y.getD 0, st1.layer⟩
        else getPrevPointSpecGo w fuel st1 (specNext slot idx)

/-- Specification decoder at the initial (all unresolved) state. -/
def getPrevPointSpec (w : List Slot) (fuel : Nat) (idx : Int) (get_layer : Bool) :
    Option WirePoint :=
  getPrevPointSpecGo w fuel ⟨none, none, none, get_layer⟩ idx

/-- Abstraction of a specification state into the concrete loop state of
    the C++ code: a look_for flag is set while the field is unresolved,
    get_layer is still set while the layer is wanted and unresolved, and
    unresolved coordinates read as the 0 the C++ initialized them to. -/
def absSt (s : SpecSt) : GoSt :=
  ⟨s.x.isNone, s.y.isNone, s.want_layer && s.layer.isNone,
   s.x.getD 0, s.y.getD 0, s.layer⟩

/-- The code walk and the specification walk agree from any pair of
    related states whose requested fields are not yet all resolved. -/
lemma go_eq_specGo (w : List Slot) :
    ∀ (fuel : Nat) (s : SpecSt) (c : GoSt) (idx : Int), c = absSt s →
      specResolved s = false →
      getPrevPointGo w fuel c idx = getPrevPointSpecGo w fuel s idx := by
  intro fuel
  induction fuel with
  | zero => intro s c idx _ _; rfl
  | succ n ih =>
    intro s c idx hc hres
    subst hc
    simp only [getPrevPointGo, getPrevPointSpecGo]
    by_cases hneg : idx < 0
    · simp [hneg]
    · simp only [if_neg hneg]
      cases hw : w.get? idx.toNat with
      | none => rfl
      | some slot =>
        by_cases h01 : slot.op &&& WOP_OPCODE_MASK = WOP_PATH ∨
            slot.op &&& WOP_OPCODE_MASK = WOP_SHORT
        · have hnx : slot.op &&& WOP_OPCODE_MASK ≠ WOP_X := by
            rcases h01 with h | h <;> rw [h] <;> decide
          have hny : slot.op &&& WOP_OPCODE_MASK ≠ WOP_Y := by
            rcases h01 with h | h <;> rw [h] <;> decide
          have hnj : slot.op &&& WOP_OPCODE_MASK ≠ WOP_JUNCTION := by
            rcases h01 with h | h <;> rw [h] <;> decide
          obtain ⟨sx, sy, sl, wl⟩ := s
          simp only [if_pos h01, specUpdate, specNext, if_neg hnx, if_neg hny, if_neg hnj]
          cases wl <;> cases sl <;> cases sx <;> cases sy <;>
            simp [absSt, specResolved] at hres ⊢ <;>
            refine ih _ _ _ ?_ ?_ <;> rfl
        · by_cases hj : slot.op &&& WOP_OPCODE_MASK = WOP_JUNCTION
          · have hnx : slot.op &&& WOP_OPCODE_MASK ≠ WOP_X := by rw [hj]; decide
            have hny : slot.op &&& WOP_OPCODE_MASK ≠ WOP_Y := by rw [hj]; decide
            have hn7 : slot.op &&& WOP_OPCODE_MASK ≠ WOP_VIA := by rw [hj]; decide
            have hn8 : slot.op &&& WOP_OPCODE_MASK ≠ WOP_TECH_VIA := by rw [hj]; decide
            simp only [if_neg h01, if_pos hj, specUpdate, specNext, if_neg hnx, if_neg hny,
              if_neg hn7, if_neg hn8, hres, Bool.false_eq_true, if_neg, if_false]
            refine ih _ _ _ ?_ hres
            rfl
          · by_cases hx : slot.op &&& WOP_OPCODE_MASK = WOP_X
            · have hny : slot.op &&& WOP_OPCODE_MASK ≠ WOP_Y := by rw [hx]; decide
              obtain ⟨sx, sy, sl, wl⟩ := s
              simp only [if_neg h01, if_neg hj, if_pos hx, specUpdate, specNext]
              cases wl <;> cases sl <;> cases sx <;> cases sy <;>
                simp [absSt, specResolved] at hres ⊢ <;>
                refine ih _ _ _ ?_ ?_ <;> rfl
            · by_cases hy : slot.op &&& WOP_OPCODE_MASK = WOP_Y
              · obtain ⟨sx, sy, sl, wl⟩ := s
                simp only [if_neg h01, if_neg hj, if_neg hx, if_pos hy, specUpdate, specNext]
                cases wl <;> cases sl <;> cases sx <;> cases sy <;>
                  simp [absSt, specResolved] at hres ⊢ <;>
                  refine ih _ _ _ ?_ ?_ <;> rfl
              · by_cases h7 : slot.op &&& WOP_OPCODE_MASK = WOP_VIA
                · obtain ⟨sx, sy, sl, wl⟩ := s
                  simp only [if_neg h01, if_neg hj, if_neg hx, if_neg hy, if_pos h7,
                    specUpdate, specNext]
                  cases wl <;> cases sl <;> cases sx <;> cases sy <;>
                    simp [absSt, specResolved] at hres ⊢ <;>
                    refine ih _ _ _ ?_ ?_ <;> rfl
                · by_cases h8 : slot.op &&& WOP_OPCODE_MASK = WOP_TECH_VIA
                  · obtain ⟨sx, sy, sl, wl⟩ := s
                    simp only [if_neg h01, if_neg hj, if_neg hx, if_neg hy, if_neg h7,
                      if_pos h8, specUpdate, specNext]
                    cases wl <;> cases sl <;> cases sx <;> cases sy <;>
                      simp [absSt, specResolved] at hres ⊢ <;>
                      refine ih _ _ _ ?_ ?_ <;> rfl
                  · simp only [if_neg h01, if_neg hj, if_neg hx, if_neg hy, if_neg h7,
                      if_neg h8, specUpdate, specNext, hres, Bool.false_eq_true, if_false]
                    refine ih _ _ _ ?_ hres
                    rfl

/-- C2: getPrevPoint computes exactly what the specification walk
    computes: walking backward from the start index, the first WOP_X
    opcode encountered provides the point x (later ones do not overwrite
    it), likewise WOP_Y for y, the walk returns as soon as x, y and — when
    requested — the layer are all resolved, and irrelevant opcodes are
    skipped by decrementing the index (with JUNCTION redirecting it).  The
    specification side is `getPrevPointSpec`, whose first-writer-wins
    Option state and stop-when-resolved loop transcribe the spec text; the
    code side is `getPrevPoint`, transcribed from the C++.  Both sides
    spend one fuel unit per visited slot, so the equality also matches the
    two walks step for step. -/
theorem getPrevPoint_first_writer_wins (w : List Slot) (fuel : Nat) (idx : Int)
    (get_layer : Bool) :
    getPrevPoint w fuel idx get_layer = getPrevPointSpec w fuel idx get_layer := by
  refine go_eq_specGo w fuel ⟨none, none, none, get_layer⟩ _ idx ?_ rfl
  cases get_layer <;> rfl

/-- C3: a WOP_JUNCTION opcode is transparent: decoding starting at the
    junction position gives exactly the result of decoding starting at the
    junction's target index (the operand), for either value of the
    requested-fields flag `get_layer`; the junction itself costs the one
    visited slot of fuel. -/
theorem getPrevPoint_junction_transparent (w : List Slot) (fuel : Nat) (idx : Int)
    (get_layer : Bool) (slot : Slot)
    (hidx : ¬idx < 0) (hw : w.get? idx.toNat = some slot)
    (hop : slot.op &&& WOP_OPCODE_MASK = WOP_JUNCTION) :
    getPrevPoint w (fuel + 1) idx get_layer = getPrevPoint w fuel slot.operand get_layer := by
  have hn01 : ¬(slot.op &&& WOP_OPCODE_MASK = WOP_PATH ∨
      slot.op &&& WOP_OPCODE_MASK = WOP_SHORT) := by
    rw [hop]; decide
  rw [getPrevPoint, getPrevPoint]
  simp only [getPrevPointGo, if_neg hidx, hw, if_neg hn01, if_pos hop]

/-- C3 witness: a three-slot stream ending in a junction back to slot 0;
    decoding at the junction equals decoding at its target. -/
theorem getPrevPoint_junction_transparent_witness :
    ([⟨WOP_X, 5⟩, ⟨WOP_Y, 7⟩, ⟨WOP_JUNCTION, 1⟩] : List Slot).get? (Int.toNat 2)
        = some ⟨WOP_JUNCTION, 1⟩
    ∧ getPrevPoint [⟨WOP_X, 5⟩, ⟨WOP_Y, 7⟩, ⟨WOP_JUNCTION, 1⟩] (3 + 1) 2 false
        = getPrevPoint [⟨WOP_X, 5⟩, ⟨WOP_Y, 7⟩, ⟨WOP_JUNCTION, 1⟩] 3 (Slot.mk WOP_JUNCTION 1).operand false :=
  ⟨rfl, getPrevPoint_junction_transparent _ 3 2 false ⟨WOP_JUNCTION, 1⟩ (by decide) rfl rfl⟩

/-- C5: as soon as the backward walk reaches a negative index — in any
    loop state, so in particular before all requested fields are resolved
    — the ZASSERT models as the `none` result: no partial point is ever
    returned and the opcode array is not read (the result is `none` for
    every stream `w`, so it cannot depend on any array contents at the
    negative index). -/
theorem getPrevPoint_negative_index_asserts (w : List Slot) (fuel : Nat) (st : GoSt)
    (idx : Int) (get_layer : Bool) (h : idx < 0) :
    getPrevPointGo w fuel st idx = none ∧ getPrevPoint w fuel idx get_layer = none := by
  constructor
  · cases fuel with
    | zero => rfl
    | succ n => simp [getPrevPointGo, h]
  · rw [getPrevPoint]
    cases fuel with
    | zero => rfl
    | succ n => simp [getPrevPointGo, h]

/-- C5 witness: decoding any stream starting at index -1 yields the
    assertion failure, not a point. -/
theorem getPrevPoint_negative_index_asserts_witness :
    ((-1 : Int) < 0)
    ∧ getPrevPointGo [Slot.mk WOP_X 5] 4 ⟨true, true, false, 0, 0, none⟩ (-1) = none
    ∧ getPrevPoint [Slot.mk WOP_X 5] 4 (-1) true = none :=
  ⟨by decide, getPrevPoint_negative_index_asserts [⟨WOP_X, 5⟩] 4 ⟨true, true, false, 0, 0, none⟩
    (-1) true (by decide)⟩

/-! ### Geometry boundary-segment algebra (edge_calc, Optdp.cpp) -/

/-- odb::Rect with the four stored coordinates. -/
structure Rect where
  xlo : Int
  ylo : Int
  xhi : Int
  yhi : Int
  deriving DecidableEq, Repr

/-- Modelled from the spec: odb Rect intersection test (geom.h is not part
    of the sampled sources).  Two rectangles intersect when they overlap
    or touch on closed intervals, matching the spec sentence that
    overlapping or adjacent child segments are merged by the sweep. -/
def Rect.intersects (a b : Rect) : Bool :=
  !(decide (b.xlo > a.xhi) || decide (b.xhi < a.xlo) ||
    decide (b.ylo > a.yhi) || decide (b.yhi < a.ylo))

/-- Modelled from the spec: odb Rect merge, the bounding union of the two
    rectangles. -/
def Rect.merge (a b : Rect) : Rect :=
  ⟨min a.xlo b.xlo, min a.ylo b.ylo, max a.xhi b.xhi, max a.yhi b.yhi⟩

/-- The axis selector computed by difference: a parent segment is
    horizontal when its y-interval is degenerate (yMin == yMax). -/
def Rect.axisH (p : Rect) : Bool := p.ylo == p.yhi

/-- Start coordinate of a segment along the varying axis
    (is_horizontal ? xMin : yMin). -/
def segStart (h : Bool) (r : Rect) : Int := if h then r.xlo else r.ylo

/-- End coordinate of a segment along the varying axis
    (is_horizontal ? xMax : yMax). -/
def segEnd (h : Bool) (r : Rect) : Int := if h then r.xhi else r.yhi

/-- Length of a segment along the varying axis. -/
def segLen (h : Bool) (r : Rect) : Int := segEnd h r - segStart h r

/-- One insertion step of sorting the child segments by start coordinate
    (std::sort with the xMin/yMin comparator; ties keep their relative
    order). -/
def insertSeg (h : Bool) (s : Rect) : List Rect → List Rect
  | [] => [s]
  | t :: ts => if segStart h t ≤ segStart h s then t :: insertSeg h s ts else s :: t :: ts

/-- Sort the child segments by their start coordinate along the varying
    axis. -/
def sortSegs (h : Bool) : List Rect → List Rect
  | [] => []
  | s :: ss => insertSeg h s (sortSegs h ss)

/-- The in-place merge pass of difference: while the current segment
    intersects the previous one the previous segment absorbs it (merge +
    erase), otherwise the previous segment is emitted and the current one
    becomes previous. -/
def mergeLoop (prev : Rect) : List Rect → List Rect
  | [] => [prev]
  | c :: rest => if c.intersects prev then mergeLoop (prev.merge c) rest
      else prev :: mergeLoop c rest

/-- The sorted and merged child segments difference sweeps over (the
    contents of sorted_segs after the merge pass). -/
def mergedChildren (parent : Rect) (segs : List Rect) : List Rect :=
  match sortSegs parent.axisH segs with
  | [] => []
  | a :: rest => mergeLoop a rest

/-- The gap rectangle emitted before a surviving child run: it spans
    [a, b] on the varying axis and copies the parent coordinates on the
    fixed axis. -/
def mkGap (h : Bool) (p : Rect) (a b : Int) : Rect :=
  if h then ⟨a, p.ylo, b, p.yhi⟩ else ⟨p.xlo, a, p.xhi, b⟩

/-- The gap-emission sweep of difference: before each merged child
    starting past current_pos emit the gap, advance current_pos to the
    child's end, and emit the trailing gap if current_pos has not reached
    the parent's end. -/
def gapsLoop (h : Bool) (p : Rect) (e : Int) : Int → List Rect → List Rect
  | current_pos, [] => if current_pos < e then [mkGap h p current_pos e] else []
  | current_pos, s :: rest =>
    (if segStart h s > current_pos then [mkGap h p current_pos (segStart h s)] else [])
      ++ gapsLoop h p e (segEnd h s) rest

/-- edge_calc::difference: the ordered list of sub-segments of
    parent_segment not covered by any child in segs. -/
def difference (parent_segment : Rect) (segs : List Rect) : List Rect :=
  if segs.isEmpty then [parent_segment]
  else
    gapsLoop parent_segment.axisH parent_segment (segEnd parent_segment.axisH parent_segment)
      (segStart parent_segment.axisH parent_segment) (mergedChildren parent_segment segs)

/-- A child segment is co-linear with the (axis-degenerate) parent
    segment: it carries the parent's coordinates on the fixed axis. -/
def colinearIn (p s : Rect) : Prop :=
  if p.axisH then s.ylo = p.ylo ∧ s.yhi = p.yhi else s.xlo = p.xlo ∧ s.xhi = p.xhi

instance (p s : Rect) : Decidable (colinearIn p s) := by
  unfold colinearIn; infer_instance

/-- A well-formed child fully contained in the parent along the varying
    axis. -/
def okSeg (p s : Rect) : Prop :=
  colinearIn p s ∧ segStart p.axisH p ≤ segStart p.axisH s
    ∧ segStart p.axisH s ≤ segEnd p.axisH s ∧ segEnd p.axisH s ≤ segEnd p.axisH p

instance (p s : Rect) : Decidable (okSeg p s) := by
  unfold okSeg; infer_instance

/-- The varying-axis start of a merged rectangle is the min of the two
    starts. -/
lemma segStart_merge (h : Bool) (a b : Rect) :
    segStart h (a.merge b) = min (segStart h a) (segStart h b) := by
  cases h <;> simp [segStart, Rect.merge]

/-- The varying-axis end of a merged rectangle is the max of the two
    ends. -/
lemma segEnd_merge (h : Bool) (a b : Rect) :
    segEnd h (a.merge b) = max (segEnd h a) (segEnd h b) := by
  cases h <;> simp [segEnd, Rect.merge]

/-- Merging two co-linear segments yields a co-linear segment. -/
lemma colinear_merge (p a b : Rect) (ha : colinearIn p a) (hb : colinearIn p b) :
    colinearIn p (a.merge b) := by
  unfold colinearIn at ha hb ⊢
  cases hax : p.axisH <;>
    simp only [hax, Bool.false_eq_true, if_false, if_true] at ha hb ⊢ <;>
    simp [Rect.merge] <;> omega

/-- For co-linear segments of a well-formed parent, the 2-D closed
    intersection test reduces to closed-interval overlap on the varying
    axis. -/
lemma intersects_colinear (p a b : Rect) (hwx : p.xlo ≤ p.xhi) (_hwy : p.ylo ≤ p.yhi)
    (ha : colinearIn p a) (hb : colinearIn p b) :
    a.intersects b = true ↔
      segStart p.axisH b ≤ segEnd p.axisH a ∧ segStart p.axisH a ≤ segEnd p.axisH b := by
  cases hax : p.axisH
  · simp only [colinearIn, hax, Bool.false_eq_true, if_false] at ha hb
    obtain ⟨ha1, ha2⟩ := ha
    obtain ⟨hb1, hb2⟩ := hb
    simp only [Rect.intersects, segStart, segEnd, hax, Bool.false_eq_true, if_false,
      Bool.not_eq_true', Bool.or_eq_false_iff, decide_eq_false_iff_not, not_lt]
    omega
  · have hyy : p.ylo = p.yhi := by
      have hx := hax; unfold Rect.axisH at hx; exact beq_iff_eq.mp hx
    simp only [colinearIn, hax, if_true] at ha hb
    obtain ⟨ha1, ha2⟩ := ha
    obtain ⟨hb1, hb2⟩ := hb
    simp only [Rect.intersects, segStart, segEnd, hax, if_true,
      Bool.not_eq_true', Bool.or_eq_false_iff, decide_eq_false_iff_not, not_lt]
    omega

/-- The chain invariant of the merged children relative to a sweep
    position: each segment is well-formed, starts at or after the current
    position, ends inside the parent, and advances the position to its
    end. -/
def chainOk (h : Bool) (e : Int) : Int → List Rect → Prop
  | _, [] => True
  | cur, s :: rest => cur ≤ segStart h s ∧ segStart h s ≤ segEnd h s
      ∧ segEnd h s ≤ e ∧ chainOk h e (segEnd h s) rest

/-- Length of an emitted gap rectangle. -/
lemma segLen_mkGap (h : Bool) (p : Rect) (a b : Int) : segLen h (mkGap h p a b) = b - a := by
  cases h <;> simp [segLen, mkGap, segStart, segEnd]

/-- Over a chain, the emitted gap lengths and the chain lengths sum to the
    remaining parent span. -/
lemma gapsLoop_sum (h : Bool) (p : Rect) (e : Int) :
    ∀ (l : List Rect) (cur : Int), chainOk h e cur l → cur ≤ e →
      ((gapsLoop h p e cur l).map (segLen h)).sum + (l.map (segLen h)).sum = e - cur := by
  intro l
  induction l with
  | nil =>
    intro cur _ hce
    by_cases hlt : cur < e
    · simp [gapsLoop, hlt, segLen_mkGap]
    · have hc : cur = e := le_antisymm hce (not_lt.mp hlt)
      simp [gapsLoop, hlt, hc]
  | cons s rest ih =>
    intro cur hch hce
    obtain ⟨h1, h2, h3, h4⟩ := hch
    have hih := ih (segEnd h s) h4 h3
    by_cases hgt : segStart h s > cur
    · simp only [gapsLoop, if_pos hgt, List.map_append, List.sum_append, List.map_cons,
        List.sum_cons, List.map_nil, List.sum_nil, segLen_mkGap]
      unfold segLen at hih ⊢
      linarith
    · simp only [gapsLoop, if_neg hgt, List.nil_append, List.map_cons, List.sum_cons]
      have hcs : cur = segStart h s := le_antisymm h1 (not_lt.mp hgt)
      unfold segLen at hih ⊢
      linarith

/-- Every gap the sweep emits has positive length. -/
lemma gapsLoop_pos (h : Bool) (p : Rect) (e : Int) :
    ∀ (l : List Rect) (cur : Int) (g : Rect), g ∈ gapsLoop h p e cur l → 0 < segLen h g := by
  intro l
  induction l with
  | nil =>
    intro cur g hg
    by_cases hlt : cur < e
    · simp only [gapsLoop, if_pos hlt, List.mem_singleton] at hg
      rw [hg, segLen_mkGap]; omega
    · simp [gapsLoop, hlt] at hg
  | cons s rest ih =>
    intro cur g hg
    simp only [gapsLoop, List.mem_append] at hg
    rcases hg with hg | hg
    · by_cases hgt : segStart h s > cur
      · simp only [if_pos hgt, List.mem_singleton] at hg
        rw [hg, segLen_mkGap]; omega
      · simp [if_neg hgt] at hg
    · exact ih (segEnd h s) g hg

/-- The merge pass turns a sorted list of well-formed contained co-linear
    children into a chain starting at any position at or before the first
    start. -/
lemma mergeLoop_chain (p : Rect) (hwx : p.xlo ≤ p.xhi) (hwy : p.ylo ≤ p.yhi) :
    ∀ (rest : List Rect) (prev : Rect) (lo : Int),
      okSeg p prev → (∀ s ∈ rest, okSeg p s) → lo ≤ segStart p.axisH prev →
      List.Pairwise (fun a b => segStart p.axisH a ≤ segStart p.axisH b) (prev :: rest) →
      chainOk p.axisH (segEnd p.axisH p) lo (mergeLoop prev rest) := by
  intro rest
  induction rest with
  | nil =>
    intro prev lo hok _ hlo _
    exact ⟨hlo, hok.2.2.1, hok.2.2.2, trivial⟩
  | cons c cs ih =>
    intro prev lo hok hall hlo hpw
    have hokc : okSeg p c := hall c (by simp)
    have hallcs : ∀ s ∈ cs, okSeg p s := fun s hs => hall s (by simp [hs])
    have hpw1 := List.pairwise_cons.mp hpw
    have hpc : segStart p.axisH prev ≤ segStart p.axisH c := hpw1.1 c (by simp)
    have hpwc := hpw1.2
    have hpwc1 := List.pairwise_cons.mp hpwc
    rw [mergeLoop]
    by_cases hint : c.intersects prev = true
    · rw [if_pos hint]
      have hred := (intersects_colinear p c prev hwx hwy hokc.1 hok.1).mp hint
      refine ih (prev.merge c) lo ?_ hallcs ?_ ?_
      · refine ⟨colinear_merge p prev c hok.1 hokc.1, ?_, ?_, ?_⟩
        · rw [segStart_merge]
          exact le_min hok.2.1 hokc.2.1
        · rw [segStart_merge, segEnd_merge]
          have := hok.2.2.1
          have := hokc.2.2.1
          omega
        · rw [segEnd_merge]
          exact max_le hok.2.2.2 hokc.2.2.2
      · rw [segStart_merge]
        have : lo ≤ segStart p.axisH c := le_trans hlo hpc
        omega
      · refine List.pairwise_cons.mpr ⟨?_, hpwc1.2⟩
        intro s hs
        rw [segStart_merge]
        have := hpwc1.1 s hs
        omega
    · rw [if_neg hint]
      have hred : ¬(segStart p.axisH prev ≤ segEnd p.axisH c
          ∧ segStart p.axisH c ≤ segEnd p.axisH prev) := by
        intro hcon
        exact hint ((intersects_colinear p c prev hwx hwy hokc.1 hok.1).mpr hcon)
      have hgap : segEnd p.axisH prev < segStart p.axisH c := by
        have h1 : segStart p.axisH prev ≤ segEnd p.axisH c := le_trans hpc hokc.2.2.1
        by_contra hcon
        exact hred ⟨h1, not_lt.mp hcon⟩
      refine ⟨hlo, hok.2.2.1, hok.2.2.2, ?_⟩
      exact ih c (segEnd p.axisH prev) hokc hallcs (le_of_lt hgap) hpwc

/-- Members of an insertion step come from the inserted element or the
    list. -/
lemma mem_insertSeg (h : Bool) (s : Rect) :
    ∀ (l : List Rect) (x : Rect), x ∈ insertSeg h s l → x = s ∨ x ∈ l := by
  intro l
  induction l with
  | nil => intro x hx; simp [insertSeg] at hx; exact Or.inl hx
  | cons t ts ih =>
    intro x hx
    by_cases hc : segStart h t ≤ segStart h s
    · rw [insertSeg, if_pos hc] at hx
      rcases List.mem_cons.mp hx with hx | hx
      · exact Or.inr (by simp [hx])
      · rcases ih x hx with hx | hx
        · exact Or.inl hx
        · exact Or.inr (by simp [hx])
    · rw [insertSeg, if_neg hc] at hx
      rcases List.mem_cons.mp hx with hx | hx
      · exact Or.inl hx
      · exact Or.inr hx

/-- Members of the sorted list come from the input list. -/
lemma mem_sortSegs (h : Bool) : ∀ (l : List Rect) (x : Rect), x ∈ sortSegs h l → x ∈ l := by
  intro l
  induction l with
  | nil => intro x hx; simp [sortSegs] at hx
  | cons s ss ih =>
    intro x hx
    rw [sortSegs] at hx
    rcases mem_insertSeg h s (sortSegs h ss) x hx with hx | hx
    · simp [hx]
    · simp [ih x hx]

/-- Insertion preserves sortedness by start coordinate. -/
lemma sorted_insertSeg (h : Bool) (s : Rect) :
    ∀ (l : List Rect), List.Pairwise (fun a b => segStart h a ≤ segStart h b) l →
      List.Pairwise (fun a b => segStart h a ≤ segStart h b) (insertSeg h s l) := by
  intro l
  induction l with
  | nil => intro _; simp [insertSeg]
  | cons t ts ih =>
    intro hpw
    have hpw1 := List.pairwise_cons.mp hpw
    by_cases hc : segStart h t ≤ segStart h s
    · rw [insertSeg, if_pos hc]
      refine List.pairwise_cons.mpr ⟨?_, ih hpw1.2⟩
      intro x hx
      rcases mem_insertSeg h s ts x hx with hx | hx
      · rw [hx]; exact hc
      · exact hpw1.1 x hx
    · rw [insertSeg, if_neg hc]
      refine List.pairwise_cons.mpr ⟨?_, hpw⟩
      intro x hx
      rcases List.mem_cons.mp hx with hx | hx
      · rw [hx]; omega
      · have := hpw1.1 x hx
        omega

/-- The sorting pass produces a list sorted by start coordinate. -/
lemma sorted_sortSegs (h : Bool) :
    ∀ (l : List Rect), List.Pairwise (fun a b => segStart h a ≤ segStart h b) (sortSegs h l) := by
  intro l
  induction l with
  | nil => simp [sortSegs]
  | cons s ss ih => exact sorted_insertSeg h s (sortSegs h ss) ih

/-- Sorting preserves the number of segments. -/
lemma length_sortSegs (h : Bool) : ∀ (l : List Rect), (sortSegs h l).length = l.length := by
  have hins : ∀ (s : Rect) (l : List Rect), (insertSeg h s l).length = l.length + 1 := by
    intro s l
    induction l with
    | nil => rfl
    | cons t ts ih =>
      by_cases hc : segStart h t ≤ segStart h s
      · rw [insertSeg, if_pos hc]; simp [ih]
      · rw [insertSeg, if_neg hc]; simp
  intro l
  induction l with
  | nil => rfl
  | cons s ss ih => rw [sortSegs, hins, ih]; rfl

/-- C4: for a well-formed parent segment of positive length and any set
    of (possibly overlapping) well-formed child segments co-linear with it
    and fully contained in it, the gap list returned by
    edge_calc::difference together with the merged children exactly tiles
    the parent: the lengths of the returned gaps plus the lengths of the
    merged children sum to the parent's length, and no zero-length gap is
    emitted. -/
theorem edge_calc_difference_tiles (parent_segment : Rect) (segs : List Rect)
    (hwx : parent_segment.xlo ≤ parent_segment.xhi)
    (hwy : parent_segment.ylo ≤ parent_segment.yhi)
    (hpos : segStart parent_segment.axisH parent_segment
        < segEnd parent_segment.axisH parent_segment)
    (hok : ∀ s ∈ segs, okSeg parent_segment s) :
    ((difference parent_segment segs).map (segLen parent_segment.axisH)).sum
        + ((mergedChildren parent_segment segs).map (segLen parent_segment.axisH)).sum
      = segLen parent_segment.axisH parent_segment
    ∧ ∀ g ∈ difference parent_segment segs, 0 < segLen parent_segment.axisH g := by
  cases hsegs : segs with
  | nil =>
    subst hsegs
    constructor
    · simp [difference, mergedChildren, sortSegs]
    · intro g hg
      simp only [difference, List.isEmpty_nil, if_true, List.mem_singleton] at hg
      rw [hg]
      unfold segLen
      omega
  | cons s0 rest0 =>
    rw [← hsegs]
    have hne : segs.isEmpty = false := by rw [hsegs]; rfl
    cases hs : sortSegs parent_segment.axisH segs with
    | nil =>
      exfalso
      have hlen := length_sortSegs parent_segment.axisH segs
      rw [hs, hsegs] at hlen
      simp at hlen
    | cons a rest =>
      have hmem : ∀ x ∈ a :: rest, x ∈ segs := by
        intro x hx
        exact mem_sortSegs _ segs x (hs ▸ hx)
      have hoka : okSeg parent_segment a := hok a (hmem a (by simp))
      have hokrest : ∀ x ∈ rest, okSeg parent_segment x :=
        fun x hx => hok x (hmem x (by simp [hx]))
      have hpw : List.Pairwise
          (fun x y => segStart parent_segment.axisH x ≤ segStart parent_segment.axisH y)
          (a :: rest) := by
        rw [← hs]
        exact sorted_sortSegs _ segs
      have hchain := mergeLoop_chain parent_segment hwx hwy rest a
        (segStart parent_segment.axisH parent_segment) hoka hokrest hoka.2.1 hpw
      have hmC : mergedChildren parent_segment segs = mergeLoop a rest := by
        rw [mergedChildren, hs]
      have hdiff : difference parent_segment segs
          = gapsLoop parent_segment.axisH parent_segment
              (segEnd parent_segment.axisH parent_segment)
              (segStart parent_segment.axisH parent_segment) (mergeLoop a rest) := by
        rw [difference, hne, hmC]
        rfl
      constructor
      · rw [hdiff, hmC]
        have hsum := gapsLoop_sum parent_segment.axisH parent_segment
          (segEnd parent_segment.axisH parent_segment) (mergeLoop a rest)
          (segStart parent_segment.axisH parent_segment) hchain (le_of_lt hpos)
        rw [segLen]
        exact hsum
      · intro g hg
        rw [hdiff] at hg
        exact gapsLoop_pos _ _ _ (mergeLoop a rest) _ g hg

/-- C4 witness: a horizontal parent from 0 to 10 with two overlapping
    children; the emitted gaps plus the merged children sum to the parent
    length and every gap is positive. -/
theorem edge_calc_difference_tiles_witness :
    (∀ s ∈ ([⟨2, 5, 4, 5⟩, ⟨3, 5, 6, 5⟩] : List Rect), okSeg ⟨0, 5, 10, 5⟩ s)
    ∧ (((difference ⟨0, 5, 10, 5⟩ [⟨2, 5, 4, 5⟩, ⟨3, 5, 6, 5⟩]).map
          (segLen (Rect.mk 0 5 10 5).axisH)).sum
        + ((mergedChildren ⟨0, 5, 10, 5⟩ [⟨2, 5, 4, 5⟩, ⟨3, 5, 6, 5⟩]).map
          (segLen (Rect.mk 0 5 10 5).axisH)).sum
        = segLen (Rect.mk 0 5 10 5).axisH ⟨0, 5, 10, 5⟩
      ∧ ∀ g ∈ difference ⟨0, 5, 10, 5⟩ [⟨2, 5, 4, 5⟩, ⟨3, 5, 6, 5⟩],
          0 < segLen (Rect.mk 0 5 10 5).axisH g) :=
  ⟨by decide, edge_calc_difference_tiles ⟨0, 5, 10, 5⟩ [⟨2, 5, 4, 5⟩, ⟨3, 5, 6, 5⟩]
    (by decide) (by decide) (by decide) (by decide)⟩

/-! ### Architecture construction (Optdp::createArchitecture) -/

/-- Architecture::Row power-rail classes. -/
inductive RowPower where
  | Power_UNK
  | Power_VDD
  | Power_VSS
  deriving DecidableEq, Repr

/-- dbSiteClass values relevant to the row loop. -/
inductive SiteClass where
  | NONE_
  | CORE
  | PAD
  deriving DecidableEq, Repr

/-- dbRowDir values. -/
inductive RowDir where
  | HORIZONTAL
  | VERTICAL
  deriving DecidableEq, Repr

/-- Modelled from the spec: the dpo symmetry flag bits (symmetry.h is not
    part of the sampled sources); three independently settable flags. -/
def Symmetry_X : Nat := 1

def Symmetry_Y : Nat := 2

def Symmetry_ROT90 : Nat := 4

/-- The fields of a database row (dbRow plus its dbSite) that
    createArchitecture reads. -/
structure DbRowM where
  siteName : String
  siteClass : SiteClass
  direction : RowDir
  siteHeight : Int
  siteWidth : Int
  spacing : Int
  siteCount : Int
  originX : Int
  originY : Int
  symX : Bool
  symY : Bool
  symR90 : Bool
  orient : Nat
  deriving DecidableEq, Repr

/-- An Architecture::Row as filled in by createArchitecture. -/
structure ArchRow where
  subRowOrigin : Int
  bottom : Int
  siteSpacing : Int
  numSites : Int
  siteWidth : Int
  height : Int
  bottomPower : RowPower
  topPower : RowPower
  symmetry : Nat
  orient : Nat
  deriving DecidableEq, Repr

/-- Modelled from the spec: the top of a row span (architecture.h is not
    part of the sampled sources); the row's [bottom, top] span has
    top = bottom + height. -/
def ArchRow.getTop (r : ArchRow) : Int := r.bottom + r.height

/-- The core-area offsets subtracted from database coordinates. -/
structure CoreRect where
  xMin : Int
  yMin : Int
  deriving DecidableEq, Repr

/-- std::numeric_limits of int, the initial accumulator of the minimum
    site height scan. -/
def INT_MAX : Int := 2147483647

/-- The minimum site height observed over all rows (the scan iterates
    every row, pad and vertical rows included). -/
def minRowHeight (rows : List DbRowM) : Int :=
  rows.foldl (fun m r => min m r.siteHeight) INT_MAX

/-- The row filter of createArchitecture: pad-site rows are skipped,
    non-horizontal rows are skipped, and rows taller than the minimum
    observed site height are skipped. -/
def keepRow (minH : Int) (r : DbRowM) : Bool :=
  !(r.siteClass == SiteClass.PAD) && (r.direction == RowDir.HORIZONTAL)
    && !(decide (r.siteHeight > minH))

/-- The Architecture::Row created for a kept database row (powers default
    to unknown; they are stamped later by the special-wire scan). -/
def toArchRow (core : CoreRect) (r : DbRowM) : ArchRow :=
  { subRowOrigin := r.originX - core.xMin
    bottom := r.originY - core.yMin
    siteSpacing := r.spacing
    numSites := r.siteCount
    siteWidth := r.siteWidth
    height := r.siteHeight
    bottomPower := RowPower.Power_UNK
    topPower := RowPower.Power_UNK
    symmetry := (if r.symX then Symmetry_X else 0) ||| (if r.symY then Symmetry_Y else 0)
      ||| (if r.symR90 then Symmetry_ROT90 else 0)
    orient := r.orient }

/-- The rows added to the architecture by the row loop of
    createArchitecture. -/
def archRows (core : CoreRect) (rows : List DbRowM) : List ArchRow :=
  (rows.filter (keepRow (minRowHeight rows))).map (toArchRow core)

/-- The (height, site name) pairs collected into skip_list, from which the
    skip warnings are emitted. -/
def skippedSites (rows : List DbRowM) : List (Int × String) :=
  rows.filterMap fun r =>
    if r.siteClass ≠ SiteClass.PAD ∧ r.direction = RowDir.HORIZONTAL
        ∧ r.siteHeight > minRowHeight rows
    then some (r.siteHeight, r.siteName) else none

/-- The minimum of the fold is at most every row's site height. -/
lemma minRowHeight_le (rows : List DbRowM) (r : DbRowM) (hr : r ∈ rows) :
    minRowHeight rows ≤ r.siteHeight := by
  unfold minRowHeight
  have hgen : ∀ (l : List DbRowM) (m : Int), r ∈ l →
      l.foldl (fun m r => min m r.siteHeight) m ≤ r.siteHeight := by
    intro l
    induction l with
    | nil => intro m hm; simp at hm
    | cons t ts ih =>
      intro m hm
      rcases List.mem_cons.mp hm with hm | hm
      · subst hm
        have hstep : ∀ (l2 : List DbRowM) (m2 m3 : Int), m2 ≤ m3 →
            l2.foldl (fun m r => min m r.siteHeight) m2 ≤ m3 := by
          intro l2
          induction l2 with
          | nil => intro m2 m3 hle; simpa using hle
          | cons u us ihu =>
            intro m2 m3 hle
            exact ihu (min m2 u.siteHeight) m3 (le_trans (min_le_left _ _) hle)
        exact hstep ts (min m r.siteHeight) r.siteHeight (min_le_right _ _)
      · exact ih (min m t.siteHeight) hm
  exact hgen rows INT_MAX hr

/-- Every row added to the architecture has the minimum site height. -/
lemma archRows_height (core : CoreRect) (rows : List DbRowM) (a : ArchRow)
    (ha : a ∈ archRows core rows) : a.height = minRowHeight rows := by
  unfold archRows at ha
  obtain ⟨r, hr, hconv⟩ := List.mem_map.mp ha
  have hkeep := (List.mem_filter.mp hr).2
  have hrmem := (List.mem_filter.mp hr).1
  unfold keepRow at hkeep
  simp only [Bool.and_eq_true, Bool.not_eq_true', decide_eq_false_iff_not, not_lt,
    beq_iff_eq] at hkeep
  have hle := minRowHeight_le rows r hrmem
  have hheq : a.height = r.siteHeight := by rw [← hconv]; rfl
  omega

/-- C8: a horizontal non-pad database row whose site height exceeds the
    minimum site height observed over all rows is excluded entirely from
    the architecture and its site name appears in the skip warning list,
    while every horizontal non-pad row of exactly the minimum site height
    is added. -/
theorem createArchitecture_skips_tall_rows (core : CoreRect) (rows : List DbRowM)
    (r : DbRowM) (hr : r ∈ rows) (hpad : r.siteClass ≠ SiteClass.PAD)
    (hdir : r.direction = RowDir.HORIZONTAL) :
    (minRowHeight rows < r.siteHeight →
        toArchRow core r ∉ archRows core rows
        ∧ r.siteName ∈ (skippedSites rows).map Prod.snd)
    ∧ (r.siteHeight = minRowHeight rows → toArchRow core r ∈ archRows core rows) := by
  constructor
  · intro htall
    constructor
    · intro hmem
      have hh := archRows_height core rows (toArchRow core r) hmem
      have : (toArchRow core r).height = r.siteHeight := rfl
      omega
    · refine List.mem_map.mpr ⟨(r.siteHeight, r.siteName), ?_, rfl⟩
      unfold skippedSites
      refine List.mem_filterMap.mpr ⟨r, hr, ?_⟩
      rw [if_pos ⟨hpad, hdir, htall⟩]
  · intro hmin
    unfold archRows
    refine List.mem_map.mpr ⟨r, ?_, rfl⟩
    refine List.mem_filter.mpr ⟨hr, ?_⟩
    unfold keepRow
    simp only [Bool.and_eq_true, Bool.not_eq_true', decide_eq_false_iff_not, not_lt,
      beq_iff_eq, beq_eq_false_iff_ne, ne_eq]
    exact ⟨⟨hpad, hdir⟩, by omega⟩

/-- The short and tall rows of the C8 witness design. -/
def c8short : DbRowM :=
  ⟨"short", SiteClass.CORE, RowDir.HORIZONTAL, 10, 1, 1, 8, 0, 0, false, false, false, 0⟩

def c8tall : DbRowM :=
  ⟨"tall", SiteClass.CORE, RowDir.HORIZONTAL, 20, 1, 1, 8, 0, 10, false, false, false, 0⟩

def c8rows : List DbRowM := [c8short, c8tall]

/-- C8 witness: two horizontal core rows of heights 10 and 20; the tall
    one is skipped with its site named in the warning. -/
theorem createArchitecture_skips_tall_rows_witness :
    (c8tall ∈ c8rows ∧ c8tall.siteClass ≠ SiteClass.PAD
      ∧ c8tall.direction = RowDir.HORIZONTAL)
    ∧ ((minRowHeight c8rows < c8tall.siteHeight →
        toArchRow ⟨0, 0⟩ c8tall ∉ archRows ⟨0, 0⟩ c8rows
        ∧ c8tall.siteName ∈ (skippedSites c8rows).map Prod.snd)
      ∧ (c8tall.siteHeight = minRowHeight c8rows →
        toArchRow ⟨0, 0⟩ c8tall ∈ archRows ⟨0, 0⟩ c8rows)) :=
  ⟨⟨by decide, by decide, by decide⟩,
    createArchitecture_skips_tall_rows ⟨0, 0⟩ c8rows c8tall (by decide) (by decide) (by decide)⟩

/-! ### Row power stamping (the special-wire scan of createArchitecture) -/

/-- dbSigType values relevant to the scan. -/
inductive SigTy where
  | POWER
  | GROUND
  | SIGNAL
  deriving DecidableEq, Repr

/-- dbWireType values relevant to the scan. -/
inductive WireTy where
  | ROUTED
  | NONROUTED
  deriving DecidableEq, Repr

/-- dbSBox direction values. -/
inductive SBoxDir where
  | HORIZONTAL
  | VERTICAL
  | UNDEFINED
  deriving DecidableEq, Repr

/-- The fields of a special-wire box (dbSBox) the scan reads; layers are
    identified by number. -/
structure SBoxM where
  direction : SBoxDir
  isVia : Bool
  layer : Nat
  yMin : Int
  yMax : Int
  deriving DecidableEq, Repr

/-- A special wire (dbSWire): its wire type and its boxes. -/
structure SWireM where
  wireType : WireTy
  wires : List SBoxM
  deriving DecidableEq, Repr

/-- The fields of a net the scan reads. -/
structure SNetM where
  special : Bool
  sigType : SigTy
  swires : List SWireM
  deriving DecidableEq, Repr

/-- Row update for one accepted rail box: the box is shifted by the core
    minima (rect.moveDelta(core.xMin(), core.yMin()) as written in the
    source), then the row's bottom power is set iff the row's bottom edge
    lies within the shifted box's [yMin, yMax] span, and its top power iff
    the row's top edge does. -/
def applySBox (pwr : RowPower) (core : CoreRect) (b : SBoxM) (row : ArchRow) : ArchRow :=
  let ryMin := b.yMin + core.yMin
  let ryMax := b.yMax + core.yMin
  let row1 := if row.bottom ≥ ryMin ∧ row.bottom ≤ ryMax
    then { row with bottomPower := pwr } else row
  if row1.getTop ≥ ryMin ∧ row1.getTop ≤ ryMax
    then { row1 with topPower := pwr } else row1

/-- The box filter of the scan: only horizontal, non-via boxes whose layer
    was recorded for the rail's class are accepted. -/
def boxQualifies (pwrLayers gndLayers : List Nat) (pwr : RowPower) (b : SBoxM) : Bool :=
  (b.direction == SBoxDir.HORIZONTAL) && !b.isVia
    && (if pwr == RowPower.Power_VDD then pwrLayers.contains b.layer
        else if pwr == RowPower.Power_VSS then gndLayers.contains b.layer
        else true)

/-- Process one special wire: only ROUTED wires contribute; each accepted
    box updates every row. -/
def applySWire (pwrLayers gndLayers : List Nat) (pwr : RowPower) (core : CoreRect)
    (sw : SWireM) (rows : List ArchRow) : List ArchRow :=
  if sw.wireType == WireTy.ROUTED then
    sw.wires.foldl
      (fun rows b =>
        if boxQualifies pwrLayers gndLayers pwr b then rows.map (applySBox pwr core b)
        else rows)
      rows
  else rows

/-- Process one net: only special POWER/GROUND nets contribute; POWER
    stamps Power_VDD and GROUND stamps Power_VSS. -/
def applyNet (pwrLayers gndLayers : List Nat) (core : CoreRect) (net : SNetM)
    (rows : List ArchRow) : List ArchRow :=
  if net.special then
    if net.sigType = SigTy.POWER ∨ net.sigType = SigTy.GROUND then
      let pwr := if net.sigType == SigTy.POWER then RowPower.Power_VDD
        else RowPower.Power_VSS
      net.swires.foldl
        (fun rows sw => applySWire pwrLayers gndLayers pwr core sw rows) rows
    else rows
  else rows

/-- The full special-wire scan at the end of createArchitecture. -/
def setRowPowers (pwrLayers gndLayers : List Nat) (core : CoreRect) (nets : List SNetM)
    (rows : List ArchRow) : List ArchRow :=
  nets.foldl (fun rows net => applyNet pwrLayers gndLayers core net rows) rows

/-- The rail power class stamped for a net (POWER stamps VDD, GROUND
    stamps VSS). -/
def railClass (net : SNetM) : RowPower :=
  if net.sigType == SigTy.POWER then RowPower.Power_VDD else RowPower.Power_VSS

/-- The C1 counterexample row: bottom 0, height 10 (span [0, 10]). -/
def c1row : ArchRow := ⟨0, 0, 1, 10, 1, 10, RowPower.Power_UNK, RowPower.Power_UNK, 0, 0⟩

/-- The C1 counterexample rail box: a horizontal routed power-rail
    rectangle with y-span [2, 3], strictly inside the row span. -/
def c1box : SBoxM := ⟨SBoxDir.HORIZONTAL, false, 1, 2, 3⟩

/-- The C1 counterexample net: a special POWER net whose single routed
    special wire holds the single rail box, on recorded power layer 1. -/
def c1net : SNetM := ⟨true, SigTy.POWER, [⟨WireTy.ROUTED, [c1box]⟩]⟩

/-- C1 counterexample: the rail rectangle's top and bottom edges (y = 2
    and y = 3) both fall within the row's [bottom, top] span [0, 10], so
    the claim says the scan stamps the row's power from this rail; but the
    code leaves both powers unknown, because it tests whether the row's
    bottom or top edge lies within the rail's span [2, 3], which neither
    does. -/
theorem createArchitecture_rail_claim_counterexample :
    (c1row.bottom ≤ c1box.yMin ∧ c1box.yMin ≤ c1row.getTop
      ∧ c1row.bottom ≤ c1box.yMax ∧ c1box.yMax ≤ c1row.getTop)
    ∧ setRowPowers [1] [] ⟨0, 0⟩ [c1net] [c1row] = [c1row]
    ∧ c1row.bottomPower = RowPower.Power_UNK
    ∧ c1row.topPower = RowPower.Power_UNK := by
  decide

/-- applySBox stamps the row's bottom power exactly when the row's bottom
    edge lies within the shifted rail span, and the top power exactly when
    the row's top edge does. -/
lemma applySBox_powers (pwr : RowPower) (core : CoreRect) (b : SBoxM) (row : ArchRow) :
    (applySBox pwr core b row).bottomPower
      = (if b.yMin + core.yMin ≤ row.bottom ∧ row.bottom ≤ b.yMax + core.yMin then pwr
         else row.bottomPower)
    ∧ (applySBox pwr core b row).topPower
      = (if b.yMin + core.yMin ≤ row.getTop ∧ row.getTop ≤ b.yMax + core.yMin then pwr
         else row.topPower) := by
  simp only [applySBox, ArchRow.getTop]
  constructor <;> split_ifs <;> simp_all

/-- C1 (amended): for a special POWER (resp. GROUND) net with a single
    routed special wire holding a single horizontal non-via rail box on a
    recorded power (resp. ground) layer, the scan maps applySBox over all
    rows, and applySBox sets a row's bottom power to the rail's class
    exactly when the row's bottom edge falls within the (core-shifted)
    rail rectangle's [yMin, yMax] span, and the row's top power exactly
    when the row's top edge does. -/
theorem createArchitecture_row_rail_matching (pwrLayers gndLayers : List Nat)
    (core : CoreRect) (net : SNetM) (sw : SWireM) (b : SBoxM) (rows : List ArchRow)
    (hsp : net.special = true)
    (hsig : net.sigType = SigTy.POWER ∨ net.sigType = SigTy.GROUND)
    (hsw : net.swires = [sw]) (hrt : sw.wireType = WireTy.ROUTED) (hwires : sw.wires = [b])
    (hdir : b.direction = SBoxDir.HORIZONTAL) (hvia : b.isVia = false)
    (hlay : (if net.sigType = SigTy.POWER then pwrLayers.contains b.layer
        else gndLayers.contains b.layer) = true) :
    setRowPowers pwrLayers gndLayers core [net] rows
        = rows.map (applySBox (railClass net) core b)
    ∧ ∀ row : ArchRow,
        (applySBox (railClass net) core b row).bottomPower
          = (if b.yMin + core.yMin ≤ row.bottom ∧ row.bottom ≤ b.yMax + core.yMin
             then railClass net else row.bottomPower)
        ∧ (applySBox (railClass net) core b row).topPower
          = (if b.yMin + core.yMin ≤ row.getTop ∧ row.getTop ≤ b.yMax + core.yMin
             then railClass net else row.topPower) := by
  have hqual : boxQualifies pwrLayers gndLayers (railClass net) b = true := by
    unfold boxQualifies railClass
    rcases hsig with hsig | hsig <;>
      simp [hsig] at hlay <;> simp [hsig, hdir, hvia, hlay]
  refine ⟨?_, fun row => applySBox_powers (railClass net) core b row⟩
  rw [setRowPowers, List.foldl_cons, List.foldl_nil, applyNet, if_pos hsp, if_pos hsig, hsw]
  show List.foldl (fun rows sw => applySWire pwrLayers gndLayers (railClass net) core sw rows)
      rows [sw] = List.map (applySBox (railClass net) core b) rows
  rw [List.foldl_cons, List.foldl_nil]
  show applySWire pwrLayers gndLayers (railClass net) core sw rows
      = List.map (applySBox (railClass net) core b) rows
  rw [applySWire, if_pos (by rw [hrt]; rfl), hwires, List.foldl_cons, List.foldl_nil]
  show (if boxQualifies pwrLayers gndLayers (railClass net) b = true
      then List.map (applySBox (railClass net) core b) rows else rows)
      = List.map (applySBox (railClass net) core b) rows
  rw [if_pos hqual]

/-- C1 amended-claim witness: the amended matching reproduces the VDD
    stamp for a rail straddling the row's bottom edge. -/
theorem createArchitecture_row_rail_matching_witness :
    (c1net.special = true ∧ (c1net.sigType = SigTy.POWER ∨ c1net.sigType = SigTy.GROUND))
    ∧ setRowPowers [1] [] ⟨0, 0⟩ [c1net] [c1row]
        = [c1row].map (applySBox (railClass c1net) ⟨0, 0⟩ c1box)
    ∧ (applySBox (railClass c1net) ⟨0, 0⟩ c1box c1row).bottomPower
        = (if c1box.yMin + (0 : Int) ≤ c1row.bottom ∧ c1row.bottom ≤ c1box.yMax + (0 : Int)
           then railClass c1net else c1row.bottomPower) := by
  have h := createArchitecture_row_rail_matching [1] [] ⟨0, 0⟩ c1net ⟨WireTy.ROUTED, [c1box]⟩
    c1box [c1row] rfl (Or.inl rfl) rfl rfl rfl rfl rfl (by decide)
  exact ⟨⟨rfl, Or.inl rfl⟩, h.1, (h.2 c1row).1⟩

/-! ### improvePlacement control flow (Optdp::improvePlacement) -/

/-- The observable side effects of Optdp::improvePlacement, in execution
    order. -/
inductive PAction where
  | report (msg : String)
  | importDb
  | legalize
  | detailedImprove (script : String)
  | updateDbInstLocations
  | reportStats
  deriving DecidableEq, Repr

/-- The detailed-improvement script assembled by improvePlacement. -/
def improveScript (disallow_one_site_gaps : Bool) : String :=
  "mis -p 10 -t 0.005;" ++ "gs -p 10 -t 0.005;" ++ "vs -p 10 -t 0.005;"
    ++ "ro -p 10 -t 0.005;" ++ "default -p 5 -f 20 -gen rng -obj hpwl -cost (hpwl);"
    ++ (if disallow_one_site_gaps then "disallow_one_site_gaps;" else "")

/-- The trace of improvePlacement as a function of the half-perimeter
    wirelength computed at entry (hpwlBefore) and the one-site-gaps
    setting: after the banner report, a zero wirelength reports the skip
    and returns; otherwise the run imports the database, legalizes, runs
    the scripted improvement, writes locations back and reports the
    statistics. -/
def improvePlacement (hpwlBefore : Int) (disallow_one_site_gaps : Bool) : List PAction :=
  PAction.report "Detailed placement improvement." ::
    (if hpwlBefore = 0 then
      [PAction.report "Skipping detailed improvement since hpwl is zero."]
    else
      [PAction.importDb, PAction.legalize,
       PAction.detailedImprove (improveScript disallow_one_site_gaps),
       PAction.updateDbInstLocations, PAction.reportStats])

/-- C7: on a zero computed wirelength, improvePlacement reports the skip
    and returns: its trace is exactly the banner and the skip report, and
    contains no import, no legalization, no improvement run, and no
    write-back of instance locations. -/
theorem improvePlacement_zero_hpwl (hpwlBefore : Int) (g : Bool) (hz : hpwlBefore = 0) :
    improvePlacement hpwlBefore g
      = [PAction.report "Detailed placement improvement.",
         PAction.report "Skipping detailed improvement since hpwl is zero."]
    ∧ ∀ a ∈ improvePlacement hpwlBefore g,
        a ≠ PAction.importDb ∧ a ≠ PAction.legalize
        ∧ (∀ s, a ≠ PAction.detailedImprove s) ∧ a ≠ PAction.updateDbInstLocations := by
  subst hz
  refine ⟨rfl, ?_⟩
  intro a ha
  simp [improvePlacement] at ha
  rcases ha with ha | ha <;> subst ha <;>
    exact ⟨by simp, by simp, fun s => by simp, by simp⟩

/-- C7 witness: the zero-wirelength trace is the two reports. -/
theorem improvePlacement_zero_hpwl_witness :
    ((0 : Int) = 0)
    ∧ improvePlacement 0 true
        = [PAction.report "Detailed placement improvement.",
           PAction.report "Skipping detailed improvement since hpwl is zero."]
    ∧ ∀ a ∈ improvePlacement 0 true,
        a ≠ PAction.importDb ∧ a ≠ PAction.legalize
        ∧ (∀ s, a ≠ PAction.detailedImprove s) ∧ a ≠ PAction.updateDbInstLocations :=
  ⟨rfl, (improvePlacement_zero_hpwl 0 true rfl).1, (improvePlacement_zero_hpwl 0 true rfl).2⟩

/-! ### Terminal nodes of createNetwork (Optdp::createNetwork) -/

/-- A bounding box as read from a dbBTerm. -/
structure BBoxM where
  xMin : Int
  yMin : Int
  xMax : Int
  yMax : Int
  deriving DecidableEq, Repr

/-- The node fields filled in for one boundary terminal by the bterm loop
    of createNetwork. -/
structure TermNode where
  id : Nat
  fixed : Bool
  height : Int
  width : Int
  origLeft : Int
  origBottom : Int
  left : Int
  bottom : Int
  bottomPower : RowPower
  topPower : RowPower
  deriving DecidableEq, Repr

/-- The terminal node created for a bterm with bounding box `bbox` and
    node id `n`: the width is xMax - xMin of the box, but the height is
    computed as yMax - yMax, exactly as written in the source. -/
def makeTerminalNode (core : CoreRect) (n : Nat) (bbox : BBoxM) : TermNode :=
  { id := n
    fixed := true
    height := bbox.yMax - bbox.yMax
    width := bbox.xMax - bbox.xMin
    origLeft := bbox.xMin - core.xMin
    origBottom := bbox.yMin - core.yMin
    left := bbox.xMin - core.xMin
    bottom := bbox.yMin - core.yMin
    bottomPower := RowPower.Power_UNK
    topPower := RowPower.Power_UNK }

/-- C10: every boundary terminal node is stored with height zero —
    the height expression yMax - yMax cancels for every bounding box,
    regardless of the box's actual height — while the stored width is the
    box's xMax - xMin. -/
theorem createNetwork_terminal_height_zero (core : CoreRect) (n : Nat) (bbox : BBoxM) :
    (makeTerminalNode core n bbox).height = 0
    ∧ (makeTerminalNode core n bbox).width = bbox.xMax - bbox.xMin := by
  constructor
  · show bbox.yMax - bbox.yMax = 0
    omega
  · rfl

/-! ### Placement groups (Optdp::setUpPlacementGroups) -/

/-- A database group as read by setUpPlacementGroups: whether it has a
    region, and the node ids of its member instances found in the
    instance map. -/
structure DbGroupM where
  hasRegion : Bool
  insts : List Nat
  deriving DecidableEq, Repr

/-- Assign region id `rid` to every member node whose group id still
    equals the default 0 (nd->getGroupId() == 0); member ids out of range
    are left alone (the instance-map miss). -/
def claimGroup (rid : Nat) (members : List Nat) (gids : List Nat) : List Nat :=
  members.foldl (fun gids v => if gids.get? v = some 0 then gids.set v rid else gids) gids

/-- The group loop: each group with a region gets the next region id
    (counting from 1, after the default region's id 0) and claims its
    still-unassigned members. -/
def assignGroupsGo (gids : List Nat) (count : Nat) : List DbGroupM → List Nat
  | [] => gids
  | g :: gs =>
    if g.hasRegion then assignGroupsGo (claimGroup count g.insts gids) (count + 1) gs
    else assignGroupsGo gids count gs

/-- setUpPlacementGroups region assignment over `n` nodes, all starting in
    the default region 0. -/
def assignGroups (n : Nat) (groups : List DbGroupM) : List Nat :=
  assignGroupsGo (List.replicate n 0) 1 groups

/-- The first-claim-wins reading of the assignment: the region id a node
    ends with is the id of the first region-bearing group listing it, and
    0 if no group claims it. -/
def firstClaimId (v : Nat) : Nat → List DbGroupM → Nat
  | _, [] => 0
  | c, g :: gs =>
    if g.hasRegion then (if v ∈ g.insts then c else firstClaimId v (c + 1) gs)
    else firstClaimId v c gs

/-- Setting another index does not change the entry at v. -/
lemma get?_set_other (a : Nat) : ∀ (l : List Nat) (i j : Nat), i ≠ j →
    (l.set i a).get? j = l.get? j := by
  intro l
  induction l with
  | nil => intro i j _; simp
  | cons t ts ih =>
    intro i j hij
    cases i with
    | zero =>
      cases j with
      | zero => exact absurd rfl hij
      | succ j2 => simp [List.set]
    | succ i2 =>
      cases j with
      | zero => simp [List.set]
      | succ j2 =>
        simp only [List.set, List.get?_cons_succ]
        exact ih i2 j2 (fun hcon => hij (by rw [hcon]))

/-- Setting an in-range index stores the value at it. -/
lemma get?_set_self (a : Nat) : ∀ (l : List Nat) (i : Nat), i < l.length →
    (l.set i a).get? i = some a := by
  intro l
  induction l with
  | nil => intro i hi; simp at hi
  | cons t ts ih =>
    intro i hi
    cases i with
    | zero => simp [List.set]
    | succ i2 =>
      simp only [List.set, List.get?_cons_succ]
      exact ih i2 (by simpa using hi)

/-- A non-default entry is never overwritten by a claim pass. -/
lemma claimGroup_keeps (rid : Nat) : ∀ (members : List Nat) (gids : List Nat) (v : Nat)
    (w : Nat), gids.get? v = some w → w ≠ 0 → (claimGroup rid members gids).get? v = some w := by
  intro members
  induction members with
  | nil => intro gids v w hv _; exact hv
  | cons m ms ih =>
    intro gids v w hv hw
    rw [claimGroup, List.foldl_cons]
    by_cases hm : gids.get? m = some 0
    · rw [if_pos hm]
      by_cases hmv : m = v
      · subst hmv
        rw [hv] at hm
        exact absurd (Option.some.inj hm) hw
      · exact ih (gids.set m rid) v w (by rw [get?_set_other rid gids m v hmv]; exact hv) hw
    · rw [if_neg hm]
      exact ih gids v w hv hw

/-- A claim pass with a nonzero region id sets exactly the still-default
    in-range members. -/
lemma claimGroup_claims (rid : Nat) (hrid : rid ≠ 0) :
    ∀ (members : List Nat) (gids : List Nat) (v : Nat), gids.get? v = some 0 →
      (claimGroup rid members gids).get? v
        = some (if v ∈ members then rid else 0) := by
  intro members
  induction members with
  | nil => intro gids v hv; simpa using hv
  | cons m ms ih =>
    intro gids v hv
    rw [claimGroup, List.foldl_cons]
    by_cases hmv : m = v
    · subst hmv
      rw [if_pos hv]
      have hvlen : m < gids.length := by
        by_contra hcon
        rw [List.get?_eq_none.mpr (by omega)] at hv
        exact Option.noConfusion hv
      have hset : (gids.set m rid).get? m = some rid := get?_set_self rid gids m hvlen
      have := claimGroup_keeps rid ms (gids.set m rid) m rid hset hrid
      rw [claimGroup] at this
      rw [this]
      simp
    · have hmem : v ∈ m :: ms ↔ v ∈ ms := by
        simp only [List.mem_cons]
        constructor
        · intro h
          rcases h with h | h
          · exact absurd h.symm hmv
          · exact h
        · intro h; exact Or.inr h
      simp only [hmem]
      by_cases hm : gids.get? m = some 0
      · rw [if_pos hm]
        exact ih (gids.set m rid) v (by rw [get?_set_other rid gids m v hmv]; exact hv)
      · rw [if_neg hm]
        exact ih gids v hv

/-- The group loop computes first-claim-wins from any state in which v is
    still default, with any positive running count. -/
lemma assignGroupsGo_firstClaim :
    ∀ (groups : List DbGroupM) (gids : List Nat) (count : Nat) (v : Nat),
      gids.get? v = some 0 → count ≠ 0 →
      (assignGroupsGo gids count groups).get? v = some (firstClaimId v count groups) := by
  intro groups
  induction groups with
  | nil => intro gids count v hv _; exact hv
  | cons g gs ih =>
    intro gids count v hv hcount
    rw [assignGroupsGo, firstClaimId]
    by_cases hreg : g.hasRegion = true
    · rw [if_pos hreg, if_pos hreg]
      by_cases hmem : v ∈ g.insts
      · rw [if_pos hmem]
        have hclaim := claimGroup_claims count hcount g.insts gids v hv
        rw [if_pos hmem] at hclaim
        have hkeep : ∀ (rest : List DbGroupM) (gids2 : List Nat) (c2 : Nat),
            gids2.get? v = some count →
            (assignGroupsGo gids2 c2 rest).get? v = some count := by
          intro rest
          induction rest with
          | nil => intro gids2 c2 h2; exact h2
          | cons r rs ihr =>
            intro gids2 c2 h2
            rw [assignGroupsGo]
            by_cases hr : r.hasRegion = true
            · rw [if_pos hr]
              exact ihr (claimGroup c2 r.insts gids2) (c2 + 1)
                (claimGroup_keeps c2 r.insts gids2 v count h2 hcount)
            · rw [if_neg hr]
              exact ihr gids2 c2 h2
        exact hkeep gs (claimGroup count g.insts gids) (count + 1) hclaim
      · rw [if_neg hmem]
        have hclaim := claimGroup_claims count hcount g.insts gids v hv
        rw [if_neg hmem] at hclaim
        exact ih (claimGroup count g.insts gids) (count + 1) v hclaim (by omega)
    · rw [if_neg hreg, if_neg hreg]
      exact ih gids count v hv hcount

/-- C9: for every node, the final group id is the id of the first
    region-bearing database group that lists the node (region ids count
    from 1, so a node already claimed never changes again), and a node no
    group claims keeps the default region id 0. -/
theorem setUpPlacementGroups_first_claim_wins (groups : List DbGroupM) (n : Nat) (v : Nat)
    (hv : v < n) :
    (assignGroups n groups).get? v = some (firstClaimId v 1 groups) := by
  rw [assignGroups]
  refine assignGroupsGo_firstClaim groups (List.replicate n 0) 1 v ?_ (by omega)
  rw [List.get?_eq_get (by simpa using hv)]
  simp

/-- C9 witness: node 1 appears in both region-bearing groups; only the
    first assignment (region id 1) is honored, node 0 keeps the default
    region and node 2 gets region 2. -/
theorem setUpPlacementGroups_first_claim_wins_witness :
    (1 < 3 ∧ 0 < 3)
    ∧ (assignGroups 3 [⟨true, [1]⟩, ⟨false, [0]⟩, ⟨true, [1, 2]⟩]).get? 1
        = some (firstClaimId 1 1 [⟨true, [1]⟩, ⟨false, [0]⟩, ⟨true, [1, 2]⟩])
    ∧ (assignGroups 3 [⟨true, [1]⟩, ⟨false, [0]⟩, ⟨true, [1, 2]⟩]).get? 0
        = some (firstClaimId 0 1 [⟨true, [1]⟩, ⟨false, [0]⟩, ⟨true, [1, 2]⟩])
    ∧ firstClaimId 1 1 [⟨true, [1]⟩, ⟨false, [0]⟩, ⟨true, [1, 2]⟩] = 1
    ∧ firstClaimId 0 1 [⟨true, [1]⟩, ⟨false, [0]⟩, ⟨true, [1, 2]⟩] = 0 :=
  ⟨⟨by decide, by decide⟩,
    setUpPlacementGroups_first_claim_wins [⟨true, [1]⟩, ⟨false, [0]⟩, ⟨true, [1, 2]⟩] 3 1
      (by decide),
    setUpPlacementGroups_first_claim_wins [⟨true, [1]⟩, ⟨false, [0]⟩, ⟨true, [1, 2]⟩] 3 0
      (by decide),
    by decide, by decide⟩

/-! ### Network construction id assignment (Optdp::createNetwork) -/

/-- The instance fields createNetwork reads for id assignment. -/
structure DbInstM where
  name : String
  placeable : Bool
  fixed : Bool
  deriving DecidableEq, Repr

/-- The net fields createNetwork reads: name, supply flag, the instances
    referenced by its instance terminals, the names of its boundary
    terminals. -/
structure DbNetM where
  name : String
  supply : Bool
  iterms : List DbInstM
  bterms : List String
  deriving DecidableEq, Repr

/-- The boundary-terminal fields createNetwork reads. -/
structure DbBTermM where
  name : String
  hasNet : Bool
  netSupply : Bool
  deriving DecidableEq, Repr

/-- A database snapshot: instance list, net list, boundary-terminal
    list. -/
structure SnapshotM where
  insts : List DbInstM
  nets : List DbNetM
  bterms : List DbBTermM
  deriving DecidableEq, Repr

/-- One step of the stable sort of the instance vector by name. -/
def insertInst (s : DbInstM) : List DbInstM → List DbInstM
  | [] => [s]
  | t :: ts => if t.name ≤ s.name then t :: insertInst s ts else s :: t :: ts

/-- The stable sort by name applied to the instance vector
    (std::stable_sort with the getName comparator). -/
def sortInsts : List DbInstM → List DbInstM
  | [] => []
  | s :: ss => insertInst s (sortInsts ss)

/-- The placeable instances in the order node ids are assigned: the
    sorted instance vector with non-placeable masters skipped. -/
def sortedPlaceable (s : SnapshotM) : List DbInstM :=
  (sortInsts s.insts).filter (·.placeable)

/-- The boundary-terminal filter: terminals with no net or on a supply
    net are skipped. -/
def btermOk (b : DbBTermM) : Bool := b.hasNet && !b.netSupply

/-- The number of cell nodes. -/
def nNodes (s : SnapshotM) : Nat := (sortedPlaceable s).length

/-- Node names in id order: placeable instances in sorted order, then the
    kept boundary terminals. -/
def nodeNames (s : SnapshotM) : List String :=
  (sortedPlaceable s).map (·.name) ++ (s.bterms.filter btermOk).map (·.name)

/-- Edge names in id order: non-supply nets in net order. -/
def edgeNames (s : SnapshotM) : List String :=
  (s.nets.filter (fun n => !n.supply)).map (·.name)

/-- The node id of an instance (the instMap lookup): its position in the
    sorted placeable list. -/
def nodeIdOf (s : SnapshotM) (i : DbInstM) : Option Nat :=
  (sortedPlaceable s).findIdx? (· == i)

/-- The node id of a boundary terminal (the termMap lookup): its position
    among the kept terminals, offset past the cell nodes. -/
def btermIdOf (s : SnapshotM) (b : String) : Option Nat :=
  ((s.bterms.filter btermOk).findIdx? (·.name == b)).map (· + nNodes s)

/-- The pins in creation order: for each non-supply net (edge ids in net
    order), a pin per placeable instance terminal, then a pin per
    boundary terminal. -/
def pinsOf (s : SnapshotM) : List (Option Nat × Nat) :=
  (s.nets.filter (fun n => !n.supply)).enum.flatMap fun pr =>
    ((pr.2.iterms.filter (·.placeable)).map fun i => (nodeIdOf s i, pr.1))
      ++ (pr.2.bterms.map fun b => (btermIdOf s b, pr.1))

/-- The complete id assignment createNetwork produces. -/
def networkIds (s : SnapshotM) : List String × List String × List (Option Nat × Nat) :=
  (nodeNames s, edgeNames s, pinsOf s)

/-- Inserting permutes to consing. -/
lemma insertInst_perm (s : DbInstM) : ∀ (l : List DbInstM), (insertInst s l).Perm (s :: l) := by
  intro l
  induction l with
  | nil => rfl
  | cons t ts ih =>
    by_cases hc : t.name ≤ s.name
    · rw [insertInst, if_pos hc]
      exact (ih.cons t).trans (List.Perm.swap s t ts)
    · rw [insertInst, if_neg hc]

/-- The sort permutes the instance vector. -/
lemma sortInsts_perm : ∀ (l : List DbInstM), (sortInsts l).Perm l := by
  intro l
  induction l with
  | nil => rfl
  | cons s ss ih => exact (insertInst_perm s (sortInsts ss)).trans (ih.cons s)

/-- Insertion preserves sortedness by name. -/
lemma sorted_insertInst (s : DbInstM) :
    ∀ (l : List DbInstM), List.Pairwise (fun a b => a.name ≤ b.name) l →
      List.Pairwise (fun a b => a.name ≤ b.name) (insertInst s l) := by
  intro l
  induction l with
  | nil => intro _; simp [insertInst]
  | cons t ts ih =>
    intro hpw
    have hpw1 := List.pairwise_cons.mp hpw
    by_cases hc : t.name ≤ s.name
    · rw [insertInst, if_pos hc]
      refine List.pairwise_cons.mpr ⟨?_, ih hpw1.2⟩
      intro x hx
      rcases List.mem_cons.mp ((insertInst_perm s ts).subset hx) with hx | hx
      · rw [hx]; exact hc
      · exact hpw1.1 x hx
    · rw [insertInst, if_neg hc]
      refine List.pairwise_cons.mpr ⟨?_, hpw⟩
      intro x hx
      have hst : s.name ≤ t.name := le_of_not_le hc
      rcases List.mem_cons.mp hx with hx | hx
      · rw [hx]; exact hst
      · exact le_trans hst (hpw1.1 x hx)

/-- The sort produces a list sorted by name. -/
lemma sorted_sortInsts :
    ∀ (l : List DbInstM), List.Pairwise (fun a b => a.name ≤ b.name) (sortInsts l) := by
  intro l
  induction l with
  | nil => simp [sortInsts]
  | cons s ss ih => exact sorted_insertInst s (sortInsts ss) ih

/-- Two sorted permutations of a list with pairwise-distinct names are
    equal. -/
lemma sorted_perm_nodup_eq :
    ∀ (l1 l2 : List DbInstM), l1.Perm l2 →
      List.Pairwise (fun a b => a.name ≤ b.name) l1 →
      List.Pairwise (fun a b => a.name ≤ b.name) l2 →
      (l1.map (·.name)).Nodup → l1 = l2 := by
  intro l1
  induction l1 with
  | nil =>
    intro l2 hp _ _ _
    exact hp.nil_eq
  | cons a t1 ih =>
    intro l2 hp hs1 hs2 hnd
    cases l2 with
    | nil =>
      exact absurd hp.symm.nil_eq (by simp)
    | cons b t2 =>
      by_cases hab : a = b
      · subst hab
        have ht : t1.Perm t2 := hp.cons_inv
        have hteq := ih t2 ht (List.pairwise_cons.mp hs1).2 (List.pairwise_cons.mp hs2).2
          (by simpa using (List.nodup_cons.mp (by simpa using hnd)).2)
        rw [hteq]
      · exfalso
        have hbmem : b ∈ a :: t1 := hp.symm.subset (List.mem_cons_self b t2)
        have hbt1 : b ∈ t1 := by
          rcases List.mem_cons.mp hbmem with h | h
          · exact absurd h.symm hab
          · exact h
        have h1 : a.name ≤ b.name := (List.pairwise_cons.mp hs1).1 b hbt1
        have hamem : a ∈ b :: t2 := hp.subset (List.mem_cons_self a t1)
        have hat2 : a ∈ t2 := by
          rcases List.mem_cons.mp hamem with h | h
          · exact absurd h hab
          · exact h
        have h2 : b.name ≤ a.name := (List.pairwise_cons.mp hs2).1 a hat2
        have hname : a.name = b.name := le_antisymm h1 h2
        exact hab (List.inj_on_of_nodup_map hnd (List.mem_cons_self a t1) hbmem hname)

/-- C6: createNetwork id assignment is deterministic by construction and
    independent of the database's internal instance order: if two
    snapshots differ only by a permutation of the instance list and
    instance names are pairwise distinct, the sort by name makes the node,
    edge and pin id assignments identical. -/
theorem createNetwork_id_assignment_deterministic (s1 s2 : SnapshotM)
    (hperm : s1.insts.Perm s2.insts) (hnets : s2.nets = s1.nets)
    (hbterms : s2.bterms = s1.bterms) (hnd : (s1.insts.map (·.name)).Nodup) :
    networkIds s1 = networkIds s2 := by
  have hsp : sortedPlaceable s1 = sortedPlaceable s2 := by
    have hp1 := sortInsts_perm s1.insts
    have hp2 := sortInsts_perm s2.insts
    have hperm2 : (sortedPlaceable s1).Perm (sortedPlaceable s2) :=
      (hp1.trans (hperm.trans hp2.symm)).filter _
    have hsub1 : (sortedPlaceable s1).Sublist (sortInsts s1.insts) := List.filter_sublist _
    have hsub2 : (sortedPlaceable s2).Sublist (sortInsts s2.insts) := List.filter_sublist _
    have hsorted1 : List.Pairwise (fun a b => a.name ≤ b.name) (sortedPlaceable s1) :=
      List.Pairwise.sublist hsub1 (sorted_sortInsts s1.insts)
    have hsorted2 : List.Pairwise (fun a b => a.name ≤ b.name) (sortedPlaceable s2) :=
      List.Pairwise.sublist hsub2 (sorted_sortInsts s2.insts)
    have hnd1 : ((sortInsts s1.insts).map (·.name)).Nodup :=
      ((hp1.map (·.name)).nodup_iff).mpr hnd
    have hndp : ((sortedPlaceable s1).map (·.name)).Nodup :=
      List.Nodup.sublist (List.Sublist.map (·.name) hsub1) hnd1
    exact sorted_perm_nodup_eq _ _ hperm2 hsorted1 hsorted2 hndp
  simp only [networkIds, nodeNames, edgeNames, pinsOf, nodeIdOf, btermIdOf, nNodes,
    hsp, hnets, hbterms]

/-- The witness instances, net, terminal and the two snapshots differing
    only in instance order. -/
def c6i1 : DbInstM := ⟨"a", true, false⟩

def c6i2 : DbInstM := ⟨"b", true, false⟩

def c6net : DbNetM := ⟨"n1", false, [c6i1, c6i2], ["t"]⟩

def c6bt : DbBTermM := ⟨"t", true, false⟩

def c6s1 : SnapshotM := ⟨[c6i2, c6i1], [c6net], [c6bt]⟩

def c6s2 : SnapshotM := ⟨[c6i1, c6i2], [c6net], [c6bt]⟩

/-- C6 witness: the two instance orders give identical id assignments. -/
theorem createNetwork_id_assignment_deterministic_witness :
    (c6s1.insts.Perm c6s2.insts ∧ (c6s1.insts.map (·.name)).Nodup)
    ∧ networkIds c6s1 = networkIds c6s2 :=
  ⟨⟨List.Perm.swap c6i1 c6i2 [], by decide⟩,
    createNetwork_id_assignment_deterministic c6s1 c6s2 (List.Perm.swap c6i1 c6i2 []) rfl rfl
      (by decide)⟩

end OptdpProof
